import Mathlib

/-!
Verification of the feed acquisition, caching, and filtering pipeline of
planet-in-go, as a shallow embedding of the Go sources.

Translated components:
* `internal/cache/cache.go` — the persistent per-source cache.  File I/O is
  modelled by an explicit store mapping cache paths to records; JSON
  (de)serialization of well-formed records is modelled as the identity, which
  is faithful because `json.Marshal`/`json.Unmarshal` round-trip the
  `CachedFeed` struct.  A missing file is `none`.
* `internal/filter/filter.go` — the filter engine.  The Go `regexp` package is
  treated as an abstract engine (`RegexEngine`), a black box supplying
  `compile` and `matchString`; the filter code is polymorphic in it.
* `internal/fetcher/fetcher.go` — the fetch orchestrator.  The network is
  abstracted into an `HttpOutcome` describing what `client.Do` produced for a
  source; the content parser is an abstract function on the response body.
* `internal/config/config.go` — `FeedConfig` and its override accessors.
-/

namespace Planet

/-- Go `time.Time`, modelled as nanoseconds since the epoch; `0` is the zero
(unset) time. -/
abbrev Time := Nat

/-- The Go zero `time.Time` value. -/
def zeroTime : Time := 0

/-- Embeds `cache.Entry` (internal/cache/cache.go together with the channel fields
used by internal/filter/filter.go and the fetcher's `convertEntries`). -/
structure Entry where
  title : String := ""
  link : String := ""
  content : String := ""
  author : String := ""
  authorEmail : String := ""
  date : Time := zeroTime
  id : String := ""
  channelName : String := ""
  channelLink : String := ""
  channelTitle : String := ""
  channelLanguage : String := ""
  titleLanguage : String := ""
  contentLanguage : String := ""
  channelAuthorName : String := ""
  channelAuthorEmail : String := ""
  channelSubtitle : String := ""
  channelURL : String := ""
  channelID : String := ""
  channelUpdated : Time := zeroTime
  channelRights : String := ""
  deriving Repr, DecidableEq

/-- Embeds `cache.Metadata`: HTTP revalidation metadata. -/
structure Metadata where
  lastFetched : Time := zeroTime
  etag : String := ""
  lastModified : String := ""
  deriving Repr, DecidableEq

/-- Embeds `cache.CachedFeed`: the on-disk record, metadata plus entries. -/
structure CachedFeed where
  metadata : Metadata := {}
  entries : List Entry := []
  deriving Repr, DecidableEq

/-- The Go zero value of `CachedFeed` (what `var cached CachedFeed` starts
from in `SaveMetadata`). -/
def emptyCachedFeed : CachedFeed := {}

/-- The file system visible to the cache: an association from cache file
paths to well-formed records.  `write` overwrites, `read` returns the most
recent write; a path never written reads as `none` (missing file). -/
def Store := List (String × CachedFeed)

instance : DecidableEq Store := inferInstanceAs (DecidableEq (List (String × CachedFeed)))

/-- Embeds `os.WriteFile`: (over)write the record at a path. -/
def Store.write (s : Store) (path : String) (v : CachedFeed) : Store :=
  (path, v) :: s

/-- Embeds `os.ReadFile` + `json.Unmarshal`: read the record at a path, `none` when
the file does not exist. -/
def Store.read (s : Store) (path : String) : Option CachedFeed :=
  (List.find? (fun p => p.1 == path) s).map (fun p => p.2)

/-- Embeds `cache.Cache`: holds the cache directory. -/
structure Cache where
  directory : String := ""
  deriving Repr, DecidableEq

/-- Helper for `sanitizeURL`: a character of the Go regexp class
`[a-zA-Z0-9+.-]` (URL scheme characters). -/
def isSchemeChar (c : Char) : Bool :=
  c.isAlpha || c.isDigit || c == '+' || c == '.' || c == '-'

/-- Helper for `sanitizeURL`: a character of the Go regexp class
`[a-zA-Z0-9._-]` (characters kept by the sanitizer). -/
def isSafeChar (c : Char) : Bool :=
  c.isAlpha || c.isDigit || c == '.' || c == '_' || c == '-'

/-- Embeds `regexp.MustCompile("^[a-zA-Z][a-zA-Z0-9+.-]*://").ReplaceAllString(url, "")`:
strip a leading URL scheme.  The scheme-character class contains neither `:`
nor `/`, so the only possible match ends at the first occurrence of `://`. -/
def stripScheme (url : String) : String :=
  match url.splitOn "://" with
  | [] => url
  | [_] => url
  | pre :: rest =>
    if pre ≠ "" && pre.toList.all isSchemeChar && (pre.toList.headD ' ').isAlpha then
      String.intercalate "://" rest
    else
      url

/-- Embeds `regexp.MustCompile("-+").ReplaceAllString(url, "-")`: collapse runs of
dashes into a single dash. -/
def collapseDashes : List Char → List Char
  | [] => []
  | '-' :: rest =>
    match collapseDashes rest with
    | '-' :: tail => '-' :: tail
    | tail => '-' :: tail
  | c :: rest => c :: collapseDashes rest

/-- Embeds `strings.Trim(url, "-")`: drop dashes from both ends. -/
def trimDashes (cs : List Char) : List Char :=
  ((cs.dropWhile (fun c => c == '-')).reverse.dropWhile (fun c => c == '-')).reverse

/-- Embeds `cache.sanitizeURL`: deterministic, filesystem-safe transform of a feed
URL into a cache file name (internal/cache/cache.go).  All characters after
the replacement step are ASCII, so Go's byte-indexed truncation coincides
with character truncation. -/
def sanitizeURL (url : String) : String :=
  let url := stripScheme url
  let url := if url.endsWith "/" then url.dropRight 1 else url
  let url := url.map (fun c => if isSafeChar c then c else '-')
  let url := String.mk (collapseDashes url.toList)
  let url := String.mk (trimDashes url.toList)
  let url :=
    if url.length > 200 then
      let url := url.take 200
      if url.endsWith "-" then url.dropRight 1 else url
    else url
  url

/-- Embeds `cache.cachePath`: the cache file path for a feed URL
(`filepath.Join(directory, sanitizeURL(url) + ".json")`). -/
def Cache.cachePath (c : Cache) (feedURL : String) : String :=
  c.directory ++ "/" ++ sanitizeURL feedURL ++ ".json"

/-- Embeds `Cache.SaveEntries`: whole-record overwrite; the stored metadata carries
only a fresh `LastFetched` stamp (`now` models the `time.Now()` call). -/
def Cache.SaveEntries (c : Cache) (now : Time) (s : Store) (feedURL : String)
    (entries : List Entry) : Store :=
  s.write (c.cachePath feedURL)
    { metadata := { lastFetched := now, etag := "", lastModified := "" }
      entries := entries }

/-- Embeds `Cache.LoadEntries`: entries of the record at the URL's path; a missing
file is `none` (Go returns `nil, nil`). -/
def Cache.LoadEntries (c : Cache) (s : Store) (feedURL : String) : Option (List Entry) :=
  (s.read (c.cachePath feedURL)).map (fun cached => cached.entries)

/-- Embeds `Cache.SaveMetadata`: load the existing record (the Go zero value when
the file is missing), replace only the metadata, write back. -/
def Cache.SaveMetadata (c : Cache) (s : Store) (feedURL : String) (meta : Metadata) : Store :=
  let path := c.cachePath feedURL
  let cached := (s.read path).getD emptyCachedFeed
  s.write path { cached with metadata := meta }

/-- Embeds `Cache.LoadMetadata`: metadata of the record at the URL's path; `none`
when the file is missing. -/
def Cache.LoadMetadata (c : Cache) (s : Store) (feedURL : String) : Option Metadata :=
  (s.read (c.cachePath feedURL)).map (fun cached => cached.metadata)

theorem store_read_write (s : Store) (path : String) (v : CachedFeed) :
    (s.write path v).read path = some v := by
  simp [Store.write, Store.read, List.find?]

/-- C6: loadEntries after saveEntries(key, X) returns exactly X.  The
non-emptiness hypothesis is part of the claim; the equation holds without
it as well. -/
theorem loadEntries_after_saveEntries (c : Cache) (now : Time) (s : Store)
    (url : String) (X : List Entry) (hne : X ≠ []) :
    c.LoadEntries (c.SaveEntries now s url X) url = some X := by
  simp [Cache.LoadEntries, Cache.SaveEntries, store_read_write]

theorem loadEntries_after_saveEntries_witness :
    (([⟨"planet", "https://example.org/feed", "post body", "", "", 7, "id-1",
        "", "", "", "", "", "", "", "", "", "", "", 0, ""⟩] : List Entry) ≠ []) ∧
    Cache.LoadEntries ⟨"cache"⟩
      (Cache.SaveEntries ⟨"cache"⟩ 42 ([] : Store) "https://example.org/feed"
        [⟨"planet", "https://example.org/feed", "post body", "", "", 7, "id-1",
          "", "", "", "", "", "", "", "", "", "", "", 0, ""⟩])
      "https://example.org/feed" =
      some [⟨"planet", "https://example.org/feed", "post body", "", "", 7, "id-1",
        "", "", "", "", "", "", "", "", "", "", "", 0, ""⟩] :=
  ⟨by decide,
   loadEntries_after_saveEntries ⟨"cache"⟩ 42 [] "https://example.org/feed"
     [⟨"planet", "https://example.org/feed", "post body", "", "", 7, "id-1",
       "", "", "", "", "", "", "", "", "", "", "", 0, ""⟩] (by decide)⟩

/-- C4: saveMetadata after saveEntries rewrites only the metadata; a
loadEntries performed afterwards returns the same entries as before the
saveMetadata call (namely X). -/
theorem saveMetadata_preserves_entries (c : Cache) (now : Time) (s : Store)
    (url : String) (X : List Entry) (meta : Metadata) :
    c.LoadEntries (c.SaveMetadata (c.SaveEntries now s url X) url meta) url =
      c.LoadEntries (c.SaveEntries now s url X) url ∧
    c.LoadEntries (c.SaveMetadata (c.SaveEntries now s url X) url meta) url = some X := by
  constructor <;>
    simp [Cache.LoadEntries, Cache.SaveMetadata, Cache.SaveEntries, store_read_write,
      Store.write, Store.read, List.find?]

/-- C10: immediately after saveEntries, the stored metadata carries only the
fresh fetch timestamp; the revalidation tag and date are empty strings until
a later saveMetadata rewrites them. -/
theorem loadMetadata_after_saveEntries (c : Cache) (now : Time) (s : Store)
    (url : String) (X : List Entry) :
    c.LoadMetadata (c.SaveEntries now s url X) url =
      some { lastFetched := now, etag := "", lastModified := "" } := by
  simp [Cache.LoadMetadata, Cache.SaveEntries, store_read_write]

/-- Embeds `config.FeedConfig` (internal/config/config.go): one feed subscription.
The Go `map[string]string` of extra keys is an association list; `Extra` is
looked up, never iterated, so the representation is observationally the map. -/
structure FeedConfig where
  URL : String := ""
  Name : String := ""
  Extra : List (String × String) := []
  deriving Repr, DecidableEq

/-- Go map lookup `f.Extra[key]` with its `ok` flag collapsed:
the value when the key is present, `""` otherwise. -/
def FeedConfig.extraOrEmpty (f : FeedConfig) (key : String) : String :=
  ((List.find? (fun p => p.1 == key) f.Extra).map (fun p => p.2)).getD ""

/-- Embeds `FeedConfig.Filter`: the feed-level filter pattern, or the empty string
when not set.  An explicitly present empty value and an absent key are
indistinguishable through this accessor. -/
def FeedConfig.Filter (f : FeedConfig) : String :=
  f.extraOrEmpty "filter"

/-- Embeds `FeedConfig.Exclude`: the feed-level exclude pattern, or the empty string
when not set. -/
def FeedConfig.Exclude (f : FeedConfig) : String :=
  f.extraOrEmpty "exclude"

/-- The Go `regexp` package, abstracted: a type `ρ` of compiled patterns, a
compiler that may fail, and a matcher.  The filter engine is polymorphic in
the engine; the pipeline code never inspects compiled patterns otherwise. -/
structure RegexEngine (ρ : Type) where
  compile : String → Except String ρ
  matchString : ρ → String → Bool

/-- A concrete engine used to run the development on closed inputs: patterns
compile to themselves and match a text exactly when they equal it. -/
def eqEngine : RegexEngine String :=
  { compile := fun pat => Except.ok pat
    matchString := fun pat text => pat == text }

/-- Embeds `filter.Filter`: a compiled include/exclude pair; `none` models the nil
`*regexp.Regexp` left by an empty pattern. -/
structure Filter (ρ : Type) where
  includeRe : Option ρ := none
  excludeRe : Option ρ := none

/-- Helper for `filter.New`: compile one pattern unless it is empty,
wrapping a compile failure with the given context (the `fmt.Errorf` text). -/
def compileOpt (E : RegexEngine ρ) (ctx : String) (pat : String) :
    Except String (Option ρ) :=
  if pat = "" then Except.ok none
  else
    match E.compile pat with
    | Except.ok re => Except.ok (some re)
    | Except.error e => Except.error (ctx ++ ": " ++ e)

/-- Embeds `filter.New`: build a `Filter` from include and exclude patterns; invalid
pattern syntax is a surfaced error. -/
def FilterNew (E : RegexEngine ρ) (includePattern excludePattern : String) :
    Except String (Filter ρ) :=
  match compileOpt E "compile include pattern" includePattern with
  | Except.error e => Except.error e
  | Except.ok i =>
    match compileOpt E "compile exclude pattern" excludePattern with
    | Except.error e => Except.error e
    | Except.ok x => Except.ok { includeRe := i, excludeRe := x }

/-- The matching text of one entry, `entry.Title + " " + entry.Content`. -/
def entryText (e : Entry) : String :=
  e.title ++ " " ++ e.content

/-- The loop body of `Filter.Apply`: walk the entries, `continue` past an
entry whose include pattern fails or whose exclude pattern matches. -/
def applyLoop (E : RegexEngine ρ) (f : Filter ρ) : List Entry → List Entry
  | [] => []
  | e :: rest =>
    let text := entryText e
    if (match f.includeRe with
        | some re => !(E.matchString re text)
        | none => false) then
      applyLoop E f rest
    else if (match f.excludeRe with
        | some re => E.matchString re text
        | none => false) then
      applyLoop E f rest
    else
      e :: applyLoop E f rest

/-- Embeds `Filter.Apply`: return the entries unchanged when both patterns are nil,
otherwise run the filtering loop. -/
def Filter.Apply (f : Filter ρ) (E : RegexEngine ρ) (entries : List Entry) : List Entry :=
  if f.includeRe.isNone && f.excludeRe.isNone then entries
  else applyLoop E f entries

/-- The keep rule of the specification, as a Boolean predicate: include empty
or matching, and exclude empty or not matching, include first. -/
def keepRule (E : RegexEngine ρ) (f : Filter ρ) (e : Entry) : Bool :=
  (match f.includeRe with
   | none => true
   | some re => E.matchString re (entryText e)) &&
  (match f.excludeRe with
   | none => true
   | some re => !(E.matchString re (entryText e)))

theorem applyLoop_eq_filter (E : RegexEngine ρ) (f : Filter ρ) (entries : List Entry) :
    applyLoop E f entries = entries.filter (keepRule E f) := by
  induction entries with
  | nil => rfl
  | cons e rest ih =>
    simp only [applyLoop, List.filter, ih, keepRule]
    cases hi : f.includeRe with
    | none =>
      cases hx : f.excludeRe with
      | none => simp
      | some rx => cases hm : E.matchString rx (entryText e) <;> simp [hm]
    | some ri =>
      cases hmi : E.matchString ri (entryText e) with
      | false => simp [hmi]
      | true =>
        cases hx : f.excludeRe with
        | none => simp [hmi]
        | some rx => cases hm : E.matchString rx (entryText e) <;> simp [hmi, hm]

/-- Shared characterization of `Filter.Apply` used by the per-feed layer. -/
theorem apply_eq_filter (f : Filter ρ) (E : RegexEngine ρ) (entries : List Entry) :
    f.Apply E entries = entries.filter (keepRule E f) := by
  unfold Filter.Apply
  cases hi : f.includeRe with
  | some ri => simp [hi, applyLoop_eq_filter]
  | none =>
    cases hx : f.excludeRe with
    | some rx => simp [hi, hx, applyLoop_eq_filter]
    | none =>
      have : keepRule E f = fun _ => true := by
        funext e; simp [keepRule, hi, hx]
      simp [hi, hx, this]

/-- C7: `Filter.Apply` keeps an entry exactly when (include empty OR include
matches the title-plus-content text) AND (exclude empty OR exclude does not
match), include evaluated first with `&&` short-circuiting. -/
theorem apply_keep_rule (f : Filter ρ) (E : RegexEngine ρ) (entries : List Entry) :
    f.Apply E entries = entries.filter (fun e =>
      (match f.includeRe with
       | none => true
       | some re => E.matchString re (entryText e)) &&
      (match f.excludeRe with
       | none => true
       | some re => !(E.matchString re (entryText e)))) :=
  apply_eq_filter f E entries

/-- The per-source pattern resolution performed at the top of the loop in
`ApplyPerFeed` (internal/filter/filter.go): start from the global patterns and
overwrite each with the feed-level value when that value is non-empty. -/
def effectivePatterns (globalInclude globalExclude : String) (cfg : FeedConfig) :
    String × String :=
  let feedFilter := cfg.Filter
  let feedExclude := cfg.Exclude
  let includePattern := if feedFilter ≠ "" then feedFilter else globalInclude
  let excludePattern := if feedExclude ≠ "" then feedExclude else globalExclude
  (includePattern, excludePattern)

/-- The filter-construction loop of `ApplyPerFeed`: build the feed-URL-to-
filter map, creating a filter only when a resolved pattern is non-empty.  The
map is an association list where the most recent insertion is found first,
matching Go map overwrite semantics. -/
def buildFeedFilters (E : RegexEngine ρ) (globalInclude globalExclude : String) :
    List FeedConfig → List (String × Filter ρ) → Except String (List (String × Filter ρ))
  | [], acc => Except.ok acc
  | cfg :: rest, acc =>
    let pats := effectivePatterns globalInclude globalExclude cfg
    if pats.1 ≠ "" || pats.2 ≠ "" then
      match FilterNew E pats.1 pats.2 with
      | Except.error e =>
        Except.error ("create filter for feed " ++ cfg.URL ++ ": " ++ e)
      | Except.ok f =>
        buildFeedFilters E globalInclude globalExclude rest ((cfg.URL, f) :: acc)
    else
      buildFeedFilters E globalInclude globalExclude rest acc

/-- Embeds `feedFilters[entry.ChannelURL]` with its `ok` flag: the registered filter
for a channel URL, if any. -/
def lookupFilter (filters : List (String × Filter ρ)) (url : String) : Option (Filter ρ) :=
  (List.find? (fun p => p.1 == url) filters).map (fun p => p.2)

/-- The entry loop of `ApplyPerFeed`: an entry whose feed has no registered
filter passes through; otherwise the entry is tested individually and kept
when the singleton application is non-empty. -/
def applyFeedFilters (E : RegexEngine ρ) (filters : List (String × Filter ρ)) :
    List Entry → List Entry
  | [] => []
  | e :: rest =>
    match lookupFilter filters e.channelURL with
    | none => e :: applyFeedFilters E filters rest
    | some f =>
      if 0 < (f.Apply E [e]).length then e :: applyFeedFilters E filters rest
      else applyFeedFilters E filters rest

/-- Embeds `filter.ApplyPerFeed`: resolve per-source filters, then filter the corpus
entry by entry. -/
def ApplyPerFeed (E : RegexEngine ρ) (entries : List Entry) (feedConfigs : List FeedConfig)
    (globalInclude globalExclude : String) : Except String (List Entry) :=
  match buildFeedFilters E globalInclude globalExclude feedConfigs [] with
  | Except.error e => Except.error e
  | Except.ok filters => Except.ok (applyFeedFilters E filters entries)

/-- The Boolean keep-predicate realized by the entry loop of `ApplyPerFeed`. -/
def keepPerFeed (E : RegexEngine ρ) (filters : List (String × Filter ρ)) (e : Entry) : Bool :=
  match lookupFilter filters e.channelURL with
  | none => true
  | some f => decide (0 < (f.Apply E [e]).length)

theorem applyFeedFilters_eq_filter (E : RegexEngine ρ) (filters : List (String × Filter ρ))
    (entries : List Entry) :
    applyFeedFilters E filters entries = entries.filter (keepPerFeed E filters) := by
  induction entries with
  | nil => rfl
  | cons e rest ih =>
    simp only [applyFeedFilters, List.filter, keepPerFeed]
    cases hl : lookupFilter filters e.channelURL with
    | none => simp [ih]
    | some f =>
      by_cases h : 0 < (f.Apply E [e]).length
      · simp [h, ih]
      · simp [h, ih]

theorem list_filter_congr {α : Type} {p q : α → Bool} :
    ∀ (l : List α), (∀ a ∈ l, p a = q a) → l.filter p = l.filter q
  | [], _ => rfl
  | a :: l, h => by
    have ha := h a (List.mem_cons_self a l)
    have hl := list_filter_congr l (fun b hb => h b (List.mem_cons_of_mem a hb))
    simp only [List.filter, ha, hl]

/-- C8: fail-open — an entry of the corpus whose channel URL has no filter
registered by the resolution pass is included in the output of `ApplyPerFeed`
unchanged, never dropped. -/
theorem applyPerFeed_fail_open (E : RegexEngine ρ) (entries : List Entry)
    (cfgs : List FeedConfig) (gInc gExc : String)
    (filters : List (String × Filter ρ)) (e : Entry)
    (hb : buildFeedFilters E gInc gExc cfgs [] = Except.ok filters)
    (hn : lookupFilter filters e.channelURL = none)
    (he : e ∈ entries) :
    ∃ out, ApplyPerFeed E entries cfgs gInc gExc = Except.ok out ∧ e ∈ out := by
  refine ⟨applyFeedFilters E filters entries, ?_, ?_⟩
  · simp [ApplyPerFeed, hb]
  · rw [applyFeedFilters_eq_filter]
    exact List.mem_filter.mpr ⟨he, by simp [keepPerFeed, hn]⟩

theorem applyPerFeed_fail_open_witness :
    ∃ out, ApplyPerFeed eqEngine
        [{ title := "hello", channelURL := "https://u/feed" }]
        [{ URL := "https://v/feed", Name := "V", Extra := [("filter", "P ")] }]
        "" "" = Except.ok out ∧
      ({ title := "hello", channelURL := "https://u/feed" } : Entry) ∈ out :=
  applyPerFeed_fail_open eqEngine
    [{ title := "hello", channelURL := "https://u/feed" }]
    [{ URL := "https://v/feed", Name := "V", Extra := [("filter", "P ")] }] "" ""
    [("https://v/feed", { includeRe := some "P ", excludeRe := none })]
    { title := "hello", channelURL := "https://u/feed" }
    (by rfl) (by rfl) (by simp)

/-- C2: a source carrying its own filter pattern B is filtered with B as a
total override of the global filter A: exactly its entries matching B are
retained, and the conclusion does not depend on A at all, even though the
source defines no exclude. -/
theorem applyPerFeed_total_override (E : RegexEngine ρ) (entries : List Entry)
    (cfg : FeedConfig) (A B : String) (rb : ρ)
    (hfB : cfg.Filter = B) (hBne : B ≠ "") (hex : cfg.Exclude = "")
    (hc : E.compile B = Except.ok rb)
    (hsrc : ∀ e ∈ entries, e.channelURL = cfg.URL) :
    ApplyPerFeed E entries [cfg] A "" =
      Except.ok (entries.filter (fun e => E.matchString rb (entryText e))) := by
  have hpats : effectivePatterns A "" cfg = (B, "") := by
    simp [effectivePatterns, hfB, hex, hBne]
  have happ : ∀ e : Entry,
      (({ includeRe := some rb, excludeRe := none } : Filter ρ).Apply E [e]) =
        if E.matchString rb (entryText e) then [e] else [] := by
    intro e
    rw [apply_eq_filter]
    cases h : E.matchString rb (entryText e) <;> simp [keepRule, List.filter, h]
  have hbuild : buildFeedFilters E A "" [cfg] [] =
      Except.ok [(cfg.URL, ({ includeRe := some rb, excludeRe := none } : Filter ρ))] := by
    simp [buildFeedFilters, hpats, hBne, FilterNew, compileOpt, hc]
  simp only [ApplyPerFeed, hbuild]
  congr 1
  rw [applyFeedFilters_eq_filter]
  refine list_filter_congr entries ?_
  intro e he
  have hu := hsrc e he
  cases h : E.matchString rb (entryText e) <;>
    simp [keepPerFeed, lookupFilter, hu, List.find?, happ, h]

theorem applyPerFeed_total_override_witness :
    ApplyPerFeed eqEngine
      [{ title := "B", channelURL := "https://u/feed" },
       { title := "A", channelURL := "https://u/feed" }]
      [{ URL := "https://u/feed", Name := "U", Extra := [("filter", "B ")] }] "A " "" =
      Except.ok [{ title := "B", channelURL := "https://u/feed" }] :=
  (applyPerFeed_total_override eqEngine
    [{ title := "B", channelURL := "https://u/feed" },
     { title := "A", channelURL := "https://u/feed" }]
    { URL := "https://u/feed", Name := "U", Extra := [("filter", "B ")] }
    "A " "B " "B " (by rfl) (by decide) (by rfl) (by rfl) (by decide)).trans (by rfl)

/-- C3 counterexample: a source whose `filter` override is explicitly present
with the empty value is not exempt from filtering — under global include
pattern "A " its non-matching entry is dropped, while the claim (empty
override disables filtering for the source) demands the entry be kept. -/
theorem applyPerFeed_empty_override_counterexample :
    ApplyPerFeed eqEngine [{ title := "X", channelURL := "https://u/feed" }]
      [{ URL := "https://u/feed", Name := "U", Extra := [("filter", "")] }] "A " "" =
      Except.ok [] ∧
    ApplyPerFeed eqEngine [{ title := "X", channelURL := "https://u/feed" }]
      [{ URL := "https://u/feed", Name := "U", Extra := [("filter", "")] }] "A " "" ≠
      Except.ok [{ title := "X", channelURL := "https://u/feed" }] := by
  refine ⟨rfl, fun h => ?_⟩
  have h2 : ([] : List Entry) = [{ title := "X", channelURL := "https://u/feed" }] :=
    Except.ok.inj h
  exact List.noConfusion h2

theorem effectivePatterns_norm (gInc gExc : String) (cfg : FeedConfig) :
    effectivePatterns "" ""
      { URL := cfg.URL, Name := cfg.Name,
        Extra := [("filter", if cfg.Filter = "" then gInc else cfg.Filter),
                  ("exclude", if cfg.Exclude = "" then gExc else cfg.Exclude)] } =
      effectivePatterns gInc gExc cfg := by
  have hf : FeedConfig.Filter
      { URL := cfg.URL, Name := cfg.Name,
        Extra := [("filter", if cfg.Filter = "" then gInc else cfg.Filter),
                  ("exclude", if cfg.Exclude = "" then gExc else cfg.Exclude)] } =
      (if cfg.Filter = "" then gInc else cfg.Filter) := rfl
  have hx : FeedConfig.Exclude
      { URL := cfg.URL, Name := cfg.Name,
        Extra := [("filter", if cfg.Filter = "" then gInc else cfg.Filter),
                  ("exclude", if cfg.Exclude = "" then gExc else cfg.Exclude)] } =
      (if cfg.Exclude = "" then gExc else cfg.Exclude) := rfl
  unfold effectivePatterns
  rw [hf, hx]
  by_cases h1 : cfg.Filter = "" <;> by_cases h2 : cfg.Exclude = "" <;>
    by_cases h3 : gInc = "" <;> by_cases h4 : gExc = "" <;>
      simp [h1, h2, h3, h4]

theorem buildFeedFilters_norm (E : RegexEngine ρ) (gInc gExc : String) :
    ∀ (cfgs : List FeedConfig) (acc : List (String × Filter ρ)),
    buildFeedFilters E "" ""
      (cfgs.map (fun cfg =>
        { URL := cfg.URL, Name := cfg.Name,
          Extra := [("filter", if cfg.Filter = "" then gInc else cfg.Filter),
                    ("exclude", if cfg.Exclude = "" then gExc else cfg.Exclude)] })) acc =
      buildFeedFilters E gInc gExc cfgs acc
  | [], _ => rfl
  | cfg :: rest, acc => by
    simp only [List.map_cons, buildFeedFilters, effectivePatterns_norm]
    split
    · cases hF : FilterNew E (effectivePatterns gInc gExc cfg).1
        (effectivePatterns gInc gExc cfg).2 with
      | error e => rfl
      | ok f => exact buildFeedFilters_norm E gInc gExc rest ((cfg.URL, f) :: acc)
    · exact buildFeedFilters_norm E gInc gExc rest acc

/-- C3 (amended): for every configured source, `ApplyPerFeed` resolves the
effective include and exclude pattern to the source's own override whenever
that override is NON-EMPTY, and falls back to the run's global default when
the override is absent or explicitly the empty string; an explicit empty
override therefore does not disable filtering but restores the global
default for that source. -/
theorem applyPerFeed_override_or_global (E : RegexEngine ρ) (entries : List Entry)
    (cfgs : List FeedConfig) (gInc gExc : String) :
    ApplyPerFeed E entries cfgs gInc gExc =
      ApplyPerFeed E entries
        (cfgs.map (fun cfg =>
          { URL := cfg.URL, Name := cfg.Name,
            Extra := [("filter", if cfg.Filter = "" then gInc else cfg.Filter),
                      ("exclude", if cfg.Exclude = "" then gExc else cfg.Exclude)] }))
        "" "" := by
  unfold ApplyPerFeed
  rw [buildFeedFilters_norm]

/-- Embeds `gofeed.Person`: an item or channel author. -/
structure GoPerson where
  name : String := ""
  email : String := ""
  deriving Repr, DecidableEq

/-- Embeds `gofeed.Item`: one parsed feed item, as consumed by `convertEntries`.
The `Parsed` fields are `*time.Time` in Go; `none` models a nil pointer. -/
structure GoItem where
  title : String := ""
  link : String := ""
  content : String := ""
  description : String := ""
  guid : String := ""
  author : Option GoPerson := none
  publishedParsed : Option Time := none
  updatedParsed : Option Time := none
  deriving Repr, DecidableEq

/-- Embeds `gofeed.Feed`: the parsed channel, as consumed by `convertEntries`. -/
structure GoFeed where
  title : String := ""
  link : String := ""
  feedLink : String := ""
  language : String := ""
  description : String := ""
  copyright : String := ""
  author : Option GoPerson := none
  updatedParsed : Option Time := none
  items : List GoItem := []
  deriving Repr, DecidableEq

/-- The date cascade applied per item by `convertEntries`
(src/unnamed/part_003): item published, else item updated, else channel
updated, else the Go zero time. -/
def resolveEntryDate (feed : GoFeed) (item : GoItem) : Time :=
  match item.publishedParsed with
  | some t => t
  | none =>
    match item.updatedParsed with
    | some t => t
    | none =>
      match feed.updatedParsed with
      | some t => t
      | none => zeroTime

/-- Embeds `convertEntries` (src/unnamed/part_003, the current fetcher; the bodies
of `SequentialFetcher.convertEntries` and `ParallelFetcher.convertEntries`
are identical, so one translation serves both): map parsed items to cache
entries.  No wall-clock time is consumed anywhere in this function. -/
def convertEntries (feed : GoFeed) (feedConfig : FeedConfig) : List Entry :=
  let channelName := if feedConfig.Name = "" then feed.title else feedConfig.Name
  let channelLanguage := feed.language
  let channelSubtitle := feed.description
  let channelURL := feedConfig.URL
  let channelRights := feed.copyright
  let channelAuthorName := match feed.author with | some a => a.name | none => ""
  let channelAuthorEmail := match feed.author with | some a => a.email | none => ""
  let channelID := if feed.feedLink = "" then feed.link else feed.feedLink
  let channelUpdated := match feed.updatedParsed with | some t => t | none => zeroTime
  feed.items.map (fun item =>
    let date := resolveEntryDate feed item
    let content := if item.content ≠ "" then item.content else item.description
    let author := match item.author with | some a => a.name | none => ""
    let authorEmail := match item.author with | some a => a.email | none => ""
    { title := item.title
      link := item.link
      content := content
      author := author
      authorEmail := authorEmail
      date := date
      id := item.guid
      channelName := channelName
      channelLink := feed.link
      channelTitle := feed.title
      channelLanguage := channelLanguage
      titleLanguage := channelLanguage
      contentLanguage := channelLanguage
      channelAuthorName := channelAuthorName
      channelAuthorEmail := channelAuthorEmail
      channelSubtitle := channelSubtitle
      channelURL := channelURL
      channelID := channelID
      channelUpdated := channelUpdated
      channelRights := channelRights })

/-- C1: the stored date of every converted item is the item published time
when present, else the item updated time, else the channel updated time,
else the zero (unset) time — written out case by case, so in particular no
wall-clock default is ever substituted (the function consumes no clock). -/
theorem convertEntries_date_policy (feed : GoFeed) (feedConfig : FeedConfig) :
    (convertEntries feed feedConfig).map Entry.date =
      feed.items.map (fun item =>
        match item.publishedParsed, item.updatedParsed, feed.updatedParsed with
        | some t, _, _ => t
        | none, some t, _ => t
        | none, none, some t => t
        | none, none, none => zeroTime) := by
  unfold convertEntries
  rw [List.map_map]
  refine List.map_congr_left ?_
  intro item _
  simp only [Function.comp]
  show resolveEntryDate feed item = _
  unfold resolveEntryDate
  cases item.publishedParsed <;> cases item.updatedParsed <;>
    cases feed.updatedParsed <;> rfl

/-- Raw response bytes, opaque to the pipeline. -/
abbrev Body := String

instance {ε α : Type} [DecidableEq ε] [DecidableEq α] : DecidableEq (Except ε α) :=
  fun a b =>
    match a, b with
    | Except.ok x, Except.ok y =>
      if h : x = y then Decidable.isTrue (by rw [h])
      else Decidable.isFalse (by intro hh; cases hh; exact h rfl)
    | Except.error x, Except.error y =>
      if h : x = y then Decidable.isTrue (by rw [h])
      else Decidable.isFalse (by intro hh; cases hh; exact h rfl)
    | Except.ok _, Except.error _ => Decidable.isFalse (by intro h; cases h)
    | Except.error _, Except.ok _ => Decidable.isFalse (by intro h; cases h)

/-- What `client.Do` produced for one source: either a transport failure or
a response with a status, revalidation headers, and a body-read outcome
(`io.ReadAll` may itself fail after the headers arrived). -/
inductive HttpOutcome where
  | transportError (msg : String)
  | response (status : Nat) (etag lastModified : String) (body : Except String Body)
  deriving Repr, DecidableEq

/-- Embeds `fetcher.FetchResult`: the per-source outcome record.  Go error values
are modelled by their message strings. -/
structure FetchResult where
  url : String := ""
  entries : List Entry := []
  cached : Bool := false
  error : Option String := none
  deriving Repr, DecidableEq

/-- The file system seen by the fetcher: the cache records plus the raw
response bodies that debug mode persists alongside them. -/
structure FS where
  records : Store := []
  raws : List (String × Body) := []
  deriving DecidableEq

/-- Modelled from the spec: `Cache.SaveRaw` is part of the current cache
implementation, whose source is not under src/ (only its caller in the
fetcher is).  Per the spec's raw-body capture knob, it "persists the
unparsed response alongside the cache entry without affecting parsed
output"; it writes a separate raw artifact and leaves the cache records
untouched. -/
def Cache.SaveRaw (_c : Cache) (fs : FS) (feedURL : String) (body : Body) : FS :=
  { fs with raws := (feedURL, body) :: fs.raws }

/-- The shared per-source fetch procedure, translated from
`SequentialFetcher.fetchOne` / `ParallelFetcher.fetchOne`
(src/unnamed/part_003; the two bodies are identical).  Request construction
and the conditional headers derived from the loaded metadata only influence
the network exchange, which is abstracted into the supplied `outcome`; the
content parser is the abstract function `parse`; `now` models `time.Now()`
at the persist step.  Cache reads cannot fail in this model, so the
non-fatal read-error branches collapse into the success branch. -/
def fetchOne (parse : Body → Except String GoFeed) (debug : Bool) (now : Time)
    (c : Cache) (feed : FeedConfig) (outcome : HttpOutcome) (fs : FS) :
    FetchResult × FS :=
  match outcome with
  | HttpOutcome.transportError msg =>
    let result : FetchResult := { url := feed.URL, error := some ("fetch feed: " ++ msg) }
    match c.LoadEntries fs.records feed.URL with
    | some entries => ({ result with entries := entries, cached := true }, fs)
    | none => (result, fs)
  | HttpOutcome.response status etag lastModified body =>
    if status = 304 then
      let entries := (c.LoadEntries fs.records feed.URL).getD []
      ({ url := feed.URL, entries := entries, cached := true }, fs)
    else if status ≠ 200 then
      let result : FetchResult :=
        { url := feed.URL, error := some ("unexpected status: " ++ toString status) }
      match c.LoadEntries fs.records feed.URL with
      | some entries => ({ result with entries := entries, cached := true }, fs)
      | none => (result, fs)
    else
      match body with
      | Except.error e =>
        ({ url := feed.URL, error := some ("read response body: " ++ e) }, fs)
      | Except.ok bodyBytes =>
        let fs := if debug then c.SaveRaw fs feed.URL bodyBytes else fs
        match parse bodyBytes with
        | Except.error e =>
          ({ url := feed.URL, error := some ("parse feed: " ++ e) }, fs)
        | Except.ok parsedFeed =>
          let entries := convertEntries parsedFeed feed
          let fs := { fs with records := c.SaveEntries now fs.records feed.URL entries }
          let newMeta : Metadata :=
            { lastFetched := now, etag := etag, lastModified := lastModified }
          let fs := { fs with records := c.SaveMetadata fs.records feed.URL newMeta }
          ({ url := feed.URL, entries := entries, cached := false }, fs)

/-- C5: when the response is a 200 with a readable body but the parser
fails, the result carries the parse error, its entries stay empty with no
cache fallback, and the cache records on disk are byte-for-byte the ones
from before the call — neither saveEntries nor saveMetadata ran. -/
theorem fetchOne_parse_error (parse : Body → Except String GoFeed) (debug : Bool)
    (now : Time) (c : Cache) (feed : FeedConfig) (etag lastModified : String)
    (body : Body) (e : String) (fs : FS)
    (hp : parse body = Except.error e) :
    (fetchOne parse debug now c feed
        (HttpOutcome.response 200 etag lastModified (Except.ok body)) fs).1 =
      { url := feed.URL, entries := [], cached := false,
        error := some ("parse feed: " ++ e) } ∧
    (fetchOne parse debug now c feed
        (HttpOutcome.response 200 etag lastModified (Except.ok body)) fs).2.records =
      fs.records := by
  cases debug <;> simp [fetchOne, hp, Cache.SaveRaw]

theorem fetchOne_parse_error_witness :
    (fetchOne (fun _ => Except.error "bad xml") true 42 ⟨"cache"⟩
        { URL := "https://u/feed", Name := "U", Extra := [] }
        (HttpOutcome.response 200 "etag-1" "lm-1" (Except.ok "<feed"))
        { records := [("seed", { metadata := {}, entries := [] })], raws := [] }).1 =
      { url := "https://u/feed", entries := [], cached := false,
        error := some ("parse feed: " ++ "bad xml") } ∧
    (fetchOne (fun _ => Except.error "bad xml") true 42 ⟨"cache"⟩
        { URL := "https://u/feed", Name := "U", Extra := [] }
        (HttpOutcome.response 200 "etag-1" "lm-1" (Except.ok "<feed"))
        { records := [("seed", { metadata := {}, entries := [] })], raws := [] }).2.records =
      [("seed", { metadata := {}, entries := [] })] :=
  fetchOne_parse_error (fun _ => Except.error "bad xml") true 42 ⟨"cache"⟩
    { URL := "https://u/feed", Name := "U", Extra := [] } "etag-1" "lm-1"
    "<feed" "bad xml"
    { records := [("seed", { metadata := {}, entries := [] })], raws := [] } (by rfl)

/-- The worker-count clamp of `ParallelFetcher.FetchFeeds`: `f.workers`,
reduced to the feed count when it exceeds it (do not spawn more workers
than feeds). -/
def actualWorkers (workers numFeeds : Nat) : Nat :=
  if workers > numFeeds then numFeeds else workers

/-- One complete worker-pool execution: the per-source procedures run
atomically in some completion order, threading the shared file system.
Every interleaving of the pool delivers the per-source results in some
order, so executions are covered by quantifying over the order. -/
def runQueue (parse : Body → Except String GoFeed) (debug : Bool) (now : Time)
    (c : Cache) (outcomes : FeedConfig → HttpOutcome) :
    List FeedConfig → FS → List FetchResult × FS
  | [], fs => ([], fs)
  | feed :: rest, fs =>
    let step := fetchOne parse debug now c feed (outcomes feed) fs
    let tail := runQueue parse debug now c outcomes rest step.2
    (step.1 :: tail.1, tail.2)

/-- Embeds `ParallelFetcher.FetchFeeds` (src/unnamed/part_003): empty input returns
an empty result list at once; otherwise all sources are published once onto
the work queue, `actualWorkers` workers drain it, and the caller collects
every result from the result channel.  `order`, intended to be a permutation
of `feeds`, models the completion order produced by the scheduler. -/
def FetchFeedsPar (parse : Body → Except String GoFeed) (debug : Bool) (now : Time)
    (c : Cache) (outcomes : FeedConfig → HttpOutcome)
    (feeds order : List FeedConfig) (fs : FS) : List FetchResult × FS :=
  if feeds.length = 0 then ([], fs)
  else runQueue parse debug now c outcomes order fs

theorem fetchOne_url (parse : Body → Except String GoFeed) (debug : Bool) (now : Time)
    (c : Cache) (feed : FeedConfig) (outcome : HttpOutcome) (fs : FS) :
    (fetchOne parse debug now c feed outcome fs).1.url = feed.URL := by
  cases outcome with
  | transportError msg =>
    cases h : c.LoadEntries fs.records feed.URL <;> simp [fetchOne, h]
  | response status etag lastModified body =>
    by_cases h304 : status = 304
    · simp [fetchOne, h304]
    · by_cases h200 : status = 200
      · subst h200
        cases body with
        | error e => simp [fetchOne, h304]
        | ok bodyBytes =>
          cases hp : parse bodyBytes with
          | error e => simp [fetchOne, h304, hp]
          | ok parsedFeed => simp [fetchOne, h304, hp]
      · cases h : c.LoadEntries fs.records feed.URL <;>
          simp [fetchOne, h304, h200, h]

theorem runQueue_urls (parse : Body → Except String GoFeed) (debug : Bool) (now : Time)
    (c : Cache) (outcomes : FeedConfig → HttpOutcome) :
    ∀ (queue : List FeedConfig) (fs : FS),
    (runQueue parse debug now c outcomes queue fs).1.map FetchResult.url =
      queue.map FeedConfig.URL
  | [], _ => rfl
  | feed :: rest, fs => by
    simp only [runQueue, List.map_cons, fetchOne_url,
      runQueue_urls parse debug now c outcomes rest]

/-- C9: for N sources (N greater or equal 1) and worker count W with W
between 1 and N, the parallel strategy clamps the pool to min(W, N) workers
and, for every completion order the scheduler can produce (each source
having been enqueued exactly once), returns exactly N results whose URLs
are a permutation of the source URLs — each source URL appearing exactly
as often as it appears in the input. -/
theorem parallel_completeness (parse : Body → Except String GoFeed) (debug : Bool)
    (now : Time) (c : Cache) (outcomes : FeedConfig → HttpOutcome)
    (feeds order : List FeedConfig) (fs : FS) (W : Nat)
    (hperm : order.Perm feeds) (hN : 1 ≤ feeds.length)
    (hW1 : 1 ≤ W) (hW2 : W ≤ feeds.length) :
    actualWorkers W feeds.length = min W feeds.length ∧
    (FetchFeedsPar parse debug now c outcomes feeds order fs).1.length = feeds.length ∧
    ((FetchFeedsPar parse debug now c outcomes feeds order fs).1.map FetchResult.url).Perm
      (feeds.map FeedConfig.URL) := by
  have hne : ¬(feeds.length = 0) := by omega
  have hurls : (FetchFeedsPar parse debug now c outcomes feeds order fs).1.map
      FetchResult.url = order.map FeedConfig.URL := by
    unfold FetchFeedsPar
    rw [if_neg hne]
    exact runQueue_urls parse debug now c outcomes order fs
  refine ⟨?_, ?_, ?_⟩
  · unfold actualWorkers
    rw [Nat.min_def]
    split <;> omega
  · have hlen := congrArg List.length hurls
    simp only [List.length_map] at hlen
    rw [hlen, hperm.length_eq]
  · rw [hurls]
    exact hperm.map FeedConfig.URL

theorem parallel_completeness_witness :
    actualWorkers 1 ([{ URL := "https://a/feed", Name := "A", Extra := [] },
        { URL := "https://b/feed", Name := "B", Extra := [] }] : List FeedConfig).length =
      min 1 ([{ URL := "https://a/feed", Name := "A", Extra := [] },
        { URL := "https://b/feed", Name := "B", Extra := [] }] : List FeedConfig).length ∧
    (FetchFeedsPar (fun _ => Except.error "x") false 0 ⟨"cache"⟩
        (fun _ => HttpOutcome.transportError "down")
        [{ URL := "https://a/feed", Name := "A", Extra := [] },
         { URL := "https://b/feed", Name := "B", Extra := [] }]
        [{ URL := "https://b/feed", Name := "B", Extra := [] },
         { URL := "https://a/feed", Name := "A", Extra := [] }]
        { records := [], raws := [] }).1.length =
      ([{ URL := "https://a/feed", Name := "A", Extra := [] },
        { URL := "https://b/feed", Name := "B", Extra := [] }] : List FeedConfig).length ∧
    ((FetchFeedsPar (fun _ => Except.error "x") false 0 ⟨"cache"⟩
        (fun _ => HttpOutcome.transportError "down")
        [{ URL := "https://a/feed", Name := "A", Extra := [] },
         { URL := "https://b/feed", Name := "B", Extra := [] }]
        [{ URL := "https://b/feed", Name := "B", Extra := [] },
         { URL := "https://a/feed", Name := "A", Extra := [] }]
        { records := [], raws := [] }).1.map FetchResult.url).Perm
      (([{ URL := "https://a/feed", Name := "A", Extra := [] },
         { URL := "https://b/feed", Name := "B", Extra := [] }] : List FeedConfig).map
        FeedConfig.URL) :=
  parallel_completeness (fun _ => Except.error "x") false 0 ⟨"cache"⟩
    (fun _ => HttpOutcome.transportError "down")
    [{ URL := "https://a/feed", Name := "A", Extra := [] },
     { URL := "https://b/feed", Name := "B", Extra := [] }]
    [{ URL := "https://b/feed", Name := "B", Extra := [] },
     { URL := "https://a/feed", Name := "A", Extra := [] }]
    { records := [], raws := [] } 1
    (by decide) (by decide) (by decide) (by decide)

end Planet
